import Mathlib

/-!
Verification development for the parameter study generation subsystem of the
WAVES repository.  The subsystem consists of a schema validator, sampler
strategies (Cartesian product, custom study, Latin hypercube, Sobol sequence),
a parameter study generator with a study merger, a serializer, and a thin CLI
wrapper (`waves/_parameter_study.py`).

The CLI wrapper `waves/_parameter_study.py` is embedded directly from the
source.  The core module `waves/parameter_generators.py` is not present in the
source tree (only its tests and its CLI caller are), so its data model and
operations are modelled from the specification, as marked on each definition.
-/

namespace Waves

/-! ## Data model: rows, parameter sets, studies -/

/-- Modelled from the spec: one row of a study is a mapping from parameter
name to its scalar value for this row (spec section 3, ParameterSet).  A
parameter missing from the mapping corresponds to a NaN-padded column. -/
structure Row (α : Type) where
  values : List (String × α)
deriving DecidableEq, Repr

/-- Lookup in an association list by key, first binding wins. -/
def lookupList {α : Type} : List (String × α) → String → Option α
  | [], _ => none
  | (k, v) :: rest, p => if k = p then some v else lookupList rest p

/-- The value a row assigns to a parameter, if any. -/
def Row.lookup {α : Type} (r : Row α) (p : String) : Option α :=
  lookupList r.values p

/-- The parameter names present in a row. -/
def Row.params {α : Type} (r : Row α) : List String :=
  r.values.map Prod.fst

/-- Modelled from the spec: a parameter set of a persisted study carries a
unique integer identifier together with its row of values (spec section 3). -/
structure SetRow (α : Type) where
  ident : Nat
  row : Row α
deriving DecidableEq, Repr

/-! ## Study merger (spec section 4.4)

Modelled from the spec: value tuples of a new row and a previous row are
compared over every parameter appearing in either row; a parameter present in
one row and missing in the other makes the rows non-matching (never a
wildcard match). -/

/-- Modelled from the spec: two rows match when their value tuples are
identical over every parameter of either row; a parameter missing on one
side is non-matching (spec section 4.4, last sentence). -/
def rowsMatch {α : Type} [DecidableEq α] (a b : Row α) : Bool :=
  (a.params ++ b.params).all fun p => decide (a.lookup p = b.lookup p)

/-- Maximum of a list of naturals, 0 for the empty list. -/
def maxList (l : List Nat) : Nat := l.foldl Nat.max 0

/-- The maximum identifier appearing in a previous study (0 when empty). -/
def maxIdent {α : Type} (prev : List (SetRow α)) : Nat :=
  maxList (prev.map (·.ident))

/-- Modelled from the spec: merge worker.  For each new row in order, if a
previous row matches, reuse its identifier; otherwise assign one plus the
maximum identifier seen so far (spec section 4.4).  `m` is the running
maximum over the previous study and all already-assigned identifiers. -/
def mergeGo {α : Type} [DecidableEq α] (prev : List (SetRow α)) :
    Nat → List (Row α) → List (SetRow α)
  | _, [] => []
  | m, r :: rs =>
    match prev.find? (fun p => rowsMatch r p.row) with
    | some p => ⟨p.ident, r⟩ :: mergeGo prev m rs
    | none => ⟨m + 1, r⟩ :: mergeGo prev (m + 1) rs

/-- Modelled from the spec: reconcile newly sampled rows against a previous
study, preserving identifiers for matching rows and minting monotonically
increasing fresh identifiers for the rest (spec section 4.4). -/
def merge {α : Type} [DecidableEq α] (prev : List (SetRow α)) (new : List (Row α)) :
    List (SetRow α) :=
  mergeGo prev (maxIdent prev) new

/-! ### Basic merge lemmas -/

theorem lookupList_eq_none {α : Type} (l : List (String × α)) (p : String)
    (h : p ∉ l.map Prod.fst) : lookupList l p = none := by
  induction l with
  | nil => rfl
  | cons kv rest ih =>
    obtain ⟨k, v⟩ := kv
    simp only [List.map_cons, List.mem_cons] at h
    push_neg at h
    simp only [lookupList, if_neg (fun hkp : k = p => h.1 hkp.symm)]
    exact ih h.2

theorem lookupList_isSome {α : Type} (l : List (String × α)) (p : String)
    (h : p ∈ l.map Prod.fst) : (lookupList l p).isSome := by
  induction l with
  | nil => simp at h
  | cons kv rest ih =>
    obtain ⟨k, v⟩ := kv
    simp only [lookupList]
    by_cases hk : k = p
    · simp [hk]
    · simp only [List.map_cons, List.mem_cons] at h
      rcases h with h | h
      · exact absurd h.symm hk
      · simp only [if_neg hk]
        exact ih h

theorem rowsMatch_refl {α : Type} [DecidableEq α] (r : Row α) : rowsMatch r r = true := by
  simp [rowsMatch, List.all_eq_true]

/-- A parameter present in one row and missing in the other forces a
non-match. -/
theorem rowsMatch_of_missing {α : Type} [DecidableEq α] (a b : Row α) (q : String)
    (hb : q ∈ b.params) (ha : q ∉ a.params) : rowsMatch a b = false := by
  apply Bool.eq_false_iff.mpr
  intro h
  rw [rowsMatch, List.all_eq_true] at h
  have hq : q ∈ a.params ++ b.params := List.mem_append_right _ hb
  have := of_decide_eq_true (h q hq)
  have h1 : a.lookup q = none := lookupList_eq_none _ _ ha
  have h2 : (b.lookup q).isSome := lookupList_isSome _ _ hb
  rw [h1] at this
  rw [← this] at h2
  simp at h2

theorem mergeGo_length {α : Type} [DecidableEq α] (prev : List (SetRow α)) :
    ∀ (rs : List (Row α)) (m : Nat), (mergeGo prev m rs).length = rs.length := by
  intro rs
  induction rs with
  | nil => intro m; rfl
  | cons r rs ih =>
    intro m
    simp only [mergeGo]
    cases prev.find? (fun p => rowsMatch r p.row) with
    | some p => simp [ih]
    | none => simp [ih]

theorem mergeGo_map_row {α : Type} [DecidableEq α] (prev : List (SetRow α)) :
    ∀ (rs : List (Row α)) (m : Nat), (mergeGo prev m rs).map (·.row) = rs := by
  intro rs
  induction rs with
  | nil => intro m; rfl
  | cons r rs ih =>
    intro m
    simp only [mergeGo]
    cases prev.find? (fun p => rowsMatch r p.row) with
    | some p => simp [ih]
    | none => simp [ih]

theorem maxList_le {l : List Nat} {a : Nat} (h : a ∈ l) : a ≤ maxList l := by
  have key : ∀ (l : List Nat) (b : Nat), b ≤ l.foldl Nat.max b ∧
      ∀ a ∈ l, a ≤ l.foldl Nat.max b := by
    intro l
    induction l with
    | nil => intro b; exact ⟨le_refl b, by simp⟩
    | cons x xs ih =>
      intro b
      constructor
      · calc b ≤ Nat.max b x := Nat.le_max_left b x
          _ ≤ (x :: xs).foldl Nat.max b := by
            simpa using (ih (Nat.max b x)).1
      · intro a ha
        rcases List.mem_cons.mp ha with rfl | ha
        · calc a ≤ Nat.max b a := Nat.le_max_right b a
            _ ≤ (a :: xs).foldl Nat.max b := by simpa using (ih (Nat.max b a)).1
        · simpa using (ih (Nat.max b x)).2 a ha
  exact (key l 0).2 a h

theorem maxIdent_le {α : Type} {prev : List (SetRow α)} {p : SetRow α}
    (h : p ∈ prev) : p.ident ≤ maxIdent prev :=
  maxList_le (List.mem_map_of_mem (·.ident) h)

theorem natMax_zero (a : Nat) : Nat.max 0 a = a := max_eq_right (Nat.zero_le a)

theorem natMax_assoc (a b c : Nat) : Nat.max (Nat.max a b) c = Nat.max a (Nat.max b c) :=
  max_assoc a b c

theorem natMax_eq_left {a b : Nat} (h : b ≤ a) : Nat.max a b = a := max_eq_left h

theorem natMax_eq_right {a b : Nat} (h : a ≤ b) : Nat.max a b = b := max_eq_right h

theorem natMax_le_left (a b : Nat) : a ≤ Nat.max a b := le_max_left a b

theorem foldl_max_eq_max {l : List Nat} :
    ∀ b : Nat, l.foldl Nat.max b = Nat.max b (l.foldl Nat.max 0) := by
  induction l with
  | nil => intro b; simp
  | cons x xs ih =>
    intro b
    rw [List.foldl_cons, List.foldl_cons, ih, ih (Nat.max 0 x), natMax_zero, natMax_assoc]

theorem maxList_cons {a : Nat} {l : List Nat} : maxList (a :: l) = Nat.max a (maxList l) := by
  simp only [maxList, List.foldl_cons]
  rw [foldl_max_eq_max, natMax_zero]

theorem maxList_append {l₁ l₂ : List Nat} :
    maxList (l₁ ++ l₂) = Nat.max (maxList l₁) (maxList l₂) := by
  simp only [maxList, List.foldl_append]
  rw [foldl_max_eq_max]

/-- Placeholder row used as a default for positional indexing. -/
def emptyRow (α : Type) : Row α := ⟨[]⟩

/-- Placeholder parameter set used as a default for positional indexing. -/
def zeroSet (α : Type) : SetRow α := ⟨0, emptyRow α⟩

/-- A merged position whose row matched a previous row keeps that previous
row's identifier. -/
theorem mergeGo_getD_matched {α : Type} [DecidableEq α] (prev : List (SetRow α)) :
    ∀ (rs : List (Row α)) (m i : Nat), i < rs.length →
    ∀ p : SetRow α,
      prev.find? (fun q => rowsMatch (rs.getD i (emptyRow α)) q.row) = some p →
      (mergeGo prev m rs).getD i (zeroSet α) = ⟨p.ident, rs.getD i (emptyRow α)⟩ := by
  intro rs
  induction rs with
  | nil => intro m i hi; simp at hi
  | cons r rs ih =>
    intro m i hi p hp
    cases i with
    | zero =>
      simp only [List.getD_cons_zero] at hp ⊢
      simp only [mergeGo, hp, List.getD_cons_zero]
    | succ j =>
      simp only [List.getD_cons_succ] at hp ⊢
      have hj : j < rs.length := by simpa using Nat.lt_of_succ_lt_succ hi
      simp only [mergeGo]
      cases prev.find? (fun q => rowsMatch r q.row) with
      | some q => simpa using ih m j hj p hp
      | none => simpa using ih (m + 1) j hj p hp

/-- A merged position whose row matched no previous row is assigned one plus
the running maximum of `m` and all already-assigned identifiers. -/
theorem mergeGo_getD_unmatched {α : Type} [DecidableEq α] (prev : List (SetRow α)) :
    ∀ (rs : List (Row α)) (m i : Nat), (∀ p ∈ prev, p.ident ≤ m) → i < rs.length →
      prev.find? (fun q => rowsMatch (rs.getD i (emptyRow α)) q.row) = none →
      ((mergeGo prev m rs).getD i (zeroSet α)).ident =
        Nat.max m (maxList (((mergeGo prev m rs).take i).map (·.ident))) + 1 := by
  intro rs
  induction rs with
  | nil => intro m i _ hi; simp at hi
  | cons r rs ih =>
    intro m i hm hi hp
    cases i with
    | zero =>
      simp only [List.getD_cons_zero] at hp
      simp only [mergeGo, hp, List.take_zero, List.map_nil]
      simp [maxList]
    | succ j =>
      simp only [List.getD_cons_succ] at hp
      have hj : j < rs.length := by simpa using Nat.lt_of_succ_lt_succ hi
      simp only [mergeGo]
      cases hfind : prev.find? (fun q => rowsMatch r q.row) with
      | some q =>
        have hq : q ∈ prev := List.mem_of_find?_eq_some hfind
        have hqm : q.ident ≤ m := hm q hq
        simp only [List.getD_cons_succ, List.take_succ_cons, List.map_cons]
        rw [ih m j hm hj hp, maxList_cons, ← natMax_assoc, natMax_eq_left hqm]
      | none =>
        have hm' : ∀ p ∈ prev, p.ident ≤ m + 1 := fun p hp' => Nat.le_succ_of_le (hm p hp')
        simp only [List.getD_cons_succ, List.take_succ_cons, List.map_cons]
        rw [ih (m + 1) j hm' hj hp, maxList_cons, ← natMax_assoc,
          natMax_eq_right (Nat.le_succ m)]

/-- An unmatched position receives an identifier strictly above the running
maximum. -/
theorem mergeGo_getD_fresh_gt {α : Type} [DecidableEq α] (prev : List (SetRow α))
    (rs : List (Row α)) (m i : Nat) (hm : ∀ p ∈ prev, p.ident ≤ m) (hi : i < rs.length)
    (hp : prev.find? (fun q => rowsMatch (rs.getD i (emptyRow α)) q.row) = none) :
    m < ((mergeGo prev m rs).getD i (zeroSet α)).ident := by
  rw [mergeGo_getD_unmatched prev rs m i hm hi hp]
  exact Nat.lt_succ_of_le (natMax_le_left _ _)

/-- Freshly minted identifiers are strictly increasing along the study. -/
theorem mergeGo_fresh_mono {α : Type} [DecidableEq α] (prev : List (SetRow α)) :
    ∀ (rs : List (Row α)) (m i j : Nat), (∀ p ∈ prev, p.ident ≤ m) →
      i < j → j < rs.length →
      prev.find? (fun q => rowsMatch (rs.getD i (emptyRow α)) q.row) = none →
      prev.find? (fun q => rowsMatch (rs.getD j (emptyRow α)) q.row) = none →
      ((mergeGo prev m rs).getD i (zeroSet α)).ident <
        ((mergeGo prev m rs).getD j (zeroSet α)).ident := by
  intro rs
  induction rs with
  | nil => intro m i j _ _ hj; simp at hj
  | cons r rs ih =>
    intro m i j hm hij hj hpi hpj
    cases i with
    | zero =>
      obtain ⟨k, rfl⟩ : ∃ k, j = k + 1 := ⟨j - 1, by omega⟩
      have hk : k < rs.length := by simpa using Nat.lt_of_succ_lt_succ hj
      simp only [List.getD_cons_zero] at hpi
      simp only [List.getD_cons_succ] at hpj
      simp only [mergeGo, hpi, List.getD_cons_zero, List.getD_cons_succ]
      have hm' : ∀ p ∈ prev, p.ident ≤ m + 1 := fun p hp' => Nat.le_succ_of_le (hm p hp')
      exact mergeGo_getD_fresh_gt prev rs (m + 1) k hm' hk hpj
    | succ i' =>
      obtain ⟨k, rfl⟩ : ∃ k, j = k + 1 := ⟨j - 1, by omega⟩
      have hk : k < rs.length := by simpa using Nat.lt_of_succ_lt_succ hj
      have hik : i' < k := by omega
      simp only [List.getD_cons_succ] at hpi hpj
      simp only [mergeGo]
      cases hfind : prev.find? (fun q => rowsMatch r q.row) with
      | some q =>
        simpa using ih m i' k hm hik hk hpi hpj
      | none =>
        have hm' : ∀ p ∈ prev, p.ident ≤ m + 1 := fun p hp' => Nat.le_succ_of_le (hm p hp')
        simpa using ih (m + 1) i' k hm' hik hk hpi hpj

/-- When no new row matches any previous row, the merged identifiers are the
consecutive naturals continuing from one past the running maximum. -/
theorem mergeGo_all_unmatched {α : Type} [DecidableEq α] (prev : List (SetRow α)) :
    ∀ (rs : List (Row α)) (m : Nat),
      (∀ r ∈ rs, prev.find? (fun q => rowsMatch r q.row) = none) →
      (mergeGo prev m rs).map (·.ident) =
        (List.range rs.length).map (fun k => m + k + 1) := by
  intro rs
  induction rs with
  | nil => intro m _; rfl
  | cons r rs ih =>
    intro m hall
    have hr := hall r (List.mem_cons_self r rs)
    simp only [mergeGo, hr, List.map_cons, List.length_cons]
    rw [ih (m + 1) (fun r' hr' => hall r' (List.mem_cons_of_mem r hr'))]
    rw [List.range_succ_eq_map, List.map_cons, List.map_map]
    refine List.cons_eq_cons.mpr ⟨by simp, ?_⟩
    apply List.map_congr_left
    intro k _
    simp only [Function.comp_apply]
    omega



/-! ### Identifier reuse on self-merge (claim C1) -/

theorem find?_eq_some_getD {β : Type} (l : List β) (pred : β → Bool) (d : β) :
    ∀ i : Nat, i < l.length → pred (l.getD i d) = true →
    (∀ j, j < i → pred (l.getD j d) = false) →
    l.find? pred = some (l.getD i d) := by
  induction l with
  | nil => intro i hi; simp at hi
  | cons x xs ih =>
    intro i hi hp hmin
    cases i with
    | zero =>
      simp only [List.getD_cons_zero] at hp ⊢
      exact List.find?_cons_of_pos xs hp
    | succ j =>
      have hx : pred x = false := by simpa using hmin 0 (Nat.succ_pos j)
      simp only [List.getD_cons_succ] at hp ⊢
      rw [List.find?_cons_of_neg xs (by simp [hx])]
      exact ih j (by simpa using Nat.lt_of_succ_lt_succ hi) hp
        (fun k hk => by simpa using hmin (k + 1) (by omega))

theorem getD_map_eq {β γ : Type} (f : β → γ) (l : List β) (d : β) :
    ∀ n : Nat, (l.map f).getD n (f d) = f (l.getD n d) := by
  induction l with
  | nil => intro n; simp
  | cons x xs ih => intro n; cases n <;> simp [ih]

/-- Self-merge of a study whose rows are pairwise non-matching reproduces the
study, identifiers included. -/
theorem merge_self {α : Type} [DecidableEq α] (prev : List (SetRow α))
    (hdist : ∀ i, i < prev.length → ∀ j, j < prev.length →
      rowsMatch ((prev.getD i (zeroSet α)).row) ((prev.getD j (zeroSet α)).row) = true →
      i = j) :
    merge prev (prev.map (·.row)) = prev := by
  have hlen : (merge prev (prev.map (·.row))).length = prev.length := by
    rw [merge, mergeGo_length]
    simp
  apply List.ext_get hlen
  intro n h1 h2
  have hn : n < prev.length := h2
  have hnew : ((prev.map (·.row)).getD n (emptyRow α)) = (prev.getD n (zeroSet α)).row :=
    getD_map_eq (fun s : SetRow α => s.row) prev (zeroSet α) n
  have hfind : prev.find?
      (fun q => rowsMatch ((prev.map (·.row)).getD n (emptyRow α)) q.row) =
      some (prev.getD n (zeroSet α)) := by
    apply find?_eq_some_getD prev _ (zeroSet α) n hn
    · rw [hnew]
      exact rowsMatch_refl _
    · intro j hj
      rw [hnew]
      apply Bool.eq_false_iff.mpr
      intro htrue
      have := hdist n hn j (Nat.lt_trans hj hn) htrue
      omega
  have hmatched := mergeGo_getD_matched prev (prev.map (·.row)) (maxIdent prev) n
    (by simpa using hn) (prev.getD n (zeroSet α)) hfind
  rw [← List.getD_eq_get _ (zeroSet α) h1, ← List.getD_eq_get _ (zeroSet α) h2]
  have hmerge : merge prev (prev.map (·.row)) = mergeGo prev (maxIdent prev) (prev.map (·.row)) :=
    rfl
  rw [hmerge, hmatched, hnew]

/-- Claim C1 (amended): merging a newly generated study against a previous
study identical to it reuses every original identifier and allocates no new
identifiers whenever the study's rows are pairwise non-matching (with
duplicate value tuples, later duplicates are remapped to the first matching
row's identifier); in general, a new row reuses a previous identifier only
if some previous row's value tuple is identical to it over all parameters
of both schemas (a parameter missing on either side is non-matching), and
the identifier reused is that of the first such previous row. -/
theorem claim_C1_merge_identifier_reuse {α : Type} [DecidableEq α]
    (prev : List (SetRow α)) :
    ((∀ i, i < prev.length → ∀ j, j < prev.length →
      rowsMatch ((prev.getD i (zeroSet α)).row) ((prev.getD j (zeroSet α)).row) = true →
      i = j) →
      merge prev (prev.map (·.row)) = prev) ∧
    (∀ (new : List (Row α)) (i : Nat), i < new.length →
      ∀ p : SetRow α,
        prev.find? (fun q => rowsMatch (new.getD i (emptyRow α)) q.row) = some p →
        (merge prev new).getD i (zeroSet α) = ⟨p.ident, new.getD i (emptyRow α)⟩) ∧
    (∀ (new : List (Row α)) (i : Nat), i < new.length →
      (∀ q ∈ prev, rowsMatch (new.getD i (emptyRow α)) q.row = false) →
      ∀ p ∈ prev, ((merge prev new).getD i (zeroSet α)).ident ≠ p.ident) := by
  refine ⟨fun hdist => merge_self prev hdist, ?_, ?_⟩
  · intro new i hi p hp
    exact mergeGo_getD_matched prev new (maxIdent prev) i hi p hp
  · intro new i hi hnone p hp
    have hfind : prev.find? (fun q => rowsMatch (new.getD i (emptyRow α)) q.row) = none := by
      rw [List.find?_eq_none]
      intro q hq hcontra
      have hc2 : rowsMatch (new.getD i (emptyRow α)) q.row = true := hcontra
      rw [hnone q hq] at hc2
      cases hc2
    have hgt := mergeGo_getD_fresh_gt prev new (maxIdent prev) i
      (fun q hq => maxIdent_le hq) hi hfind
    have hle := maxIdent_le hp
    rw [merge]
    omega

/-- Modelled from the claim wording under test: value tuples identical over
all parameters common to both rows (ignoring parameters present on only one
side).  Used only to exhibit that common-parameter agreement alone does not
imply identifier reuse. -/
def agreesOnCommon {α : Type} [DecidableEq α] (a b : Row α) : Bool :=
  a.params.all fun p => !(b.params.contains p) || decide (a.lookup p = b.lookup p)

/-- Previous study for the claim C1 counterexample: one row over the single
parameter `parameter_1`. -/
def prevStudyC1 : List (SetRow Int) := [⟨0, ⟨[("parameter_1", 1)]⟩⟩]

/-- New rows for the claim C1 counterexample: the schema grew by
`parameter_2`; the row agrees with the previous row on the common
parameter. -/
def newRowsC1 : List (Row Int) := [⟨[("parameter_1", 1), ("parameter_2", 5)]⟩]

/-- A previous study whose two parameter sets carry identical value tuples
under distinct identifiers 0 and 1, as a duplicate-friendly sampler (for
example a Cartesian product over a value list with a repeated value)
produces from the same schema, sampler and seed on every run. -/
def prevStudyDup : List (SetRow Int) :=
  [⟨0, ⟨[("width", 1)]⟩⟩, ⟨1, ⟨[("width", 1)]⟩⟩]

/-- Claim C1 as stated fails twice.  First, a new row identical to a
previous row over all parameters common to both schemas does not reuse that
row's identifier when the schemas differ: the merge mints identifier 1
instead of reusing 0.  Second, self-merging a study with duplicate value
tuples does not keep every original identifier: both rows are remapped to
the first matching identifier 0, so identifier 1 is not kept. -/
theorem claim_C1_counterexample :
    (agreesOnCommon (newRowsC1.getD 0 (emptyRow Int)) ((prevStudyC1.getD 0 (zeroSet Int)).row)
      = true) ∧
    (agreesOnCommon ((prevStudyC1.getD 0 (zeroSet Int)).row) (newRowsC1.getD 0 (emptyRow Int))
      = true) ∧
    ((merge prevStudyC1 newRowsC1).map (·.ident) = [1]) ∧
    ((merge prevStudyDup (prevStudyDup.map (·.row))).map (·.ident) = [0, 0]) := by
  decide

/-- Witness study for claim C1: two pairwise non-matching rows. -/
def prevStudyW : List (SetRow Int) :=
  [⟨0, ⟨[("width", 1)]⟩⟩, ⟨1, ⟨[("width", 2)]⟩⟩]

/-- New row for the claim C1 witness that fully matches previous set 1. -/
def newRowMatchW : List (Row Int) := [⟨[("width", 2)]⟩]

/-- New row for the claim C1 witness that matches no previous set. -/
def newRowFreshW : List (Row Int) := [⟨[("width", 9)]⟩]

theorem claim_C1_witness :
    merge prevStudyW (prevStudyW.map (·.row)) = prevStudyW ∧
    (merge prevStudyW newRowMatchW).getD 0 (zeroSet Int)
      = ⟨1, newRowMatchW.getD 0 (emptyRow Int)⟩ ∧
    ∀ p ∈ prevStudyW,
      ((merge prevStudyW newRowFreshW).getD 0 (zeroSet Int)).ident ≠ p.ident := by
  have h := claim_C1_merge_identifier_reuse prevStudyW
  exact ⟨h.1 (by decide),
    h.2.1 newRowMatchW 0 (by decide) ⟨1, ⟨[("width", 2)]⟩⟩ (by decide),
    h.2.2 newRowFreshW 0 (by decide) (by decide)⟩

/-! ### Missing parameters never wildcard-match (claim C2) -/

theorem rowsMatch_of_missing_left {α : Type} [DecidableEq α] (a b : Row α) (q : String)
    (ha : q ∈ a.params) (hb : q ∉ b.params) : rowsMatch a b = false := by
  apply Bool.eq_false_iff.mpr
  intro h
  rw [rowsMatch, List.all_eq_true] at h
  have hq : q ∈ a.params ++ b.params := List.mem_append_left _ ha
  have heq := of_decide_eq_true (h q hq)
  have h1 : b.lookup q = none := lookupList_eq_none _ _ hb
  have h2 : (a.lookup q).isSome := lookupList_isSome _ _ ha
  rw [h1] at heq
  rw [heq] at h2
  simp at h2

/-- Claim C2: a parameter present in one row and missing in the other makes
the rows non-matching, never a wildcard match; consequently, merging new rows
that all lack a parameter present in every previous row assigns strictly
fresh consecutive identifiers and reuses no previous identifier. -/
theorem claim_C2_added_parameter_no_reuse {α : Type} [DecidableEq α]
    (prev : List (SetRow α)) (new : List (Row α)) (q : String)
    (hprev : ∀ p ∈ prev, q ∈ p.row.params) (hnew : ∀ r ∈ new, q ∉ r.params) :
    (∀ (a b : Row α), q ∈ b.params → q ∉ a.params →
      rowsMatch a b = false ∧ rowsMatch b a = false) ∧
    (merge prev new).map (·.ident) =
      (List.range new.length).map (fun k => maxIdent prev + k + 1) ∧
    ∀ s ∈ merge prev new, ∀ p ∈ prev, s.ident ≠ p.ident := by
  have hnomatch : ∀ r ∈ new, prev.find? (fun p => rowsMatch r p.row) = none := by
    intro r hr
    apply List.find?_eq_none.mpr
    intro p hp
    simp only [Bool.not_eq_true]
    exact rowsMatch_of_missing r p.row q (hprev p hp) (hnew r hr)
  have hids : (merge prev new).map (·.ident) =
      (List.range new.length).map (fun k => maxIdent prev + k + 1) :=
    mergeGo_all_unmatched prev new (maxIdent prev) hnomatch
  refine ⟨?_, hids, ?_⟩
  · intro a b hbq haq
    exact ⟨rowsMatch_of_missing a b q hbq haq, rowsMatch_of_missing_left b a q hbq haq⟩
  · intro s hs p hp
    have hmem : s.ident ∈ (merge prev new).map (·.ident) :=
      List.mem_map_of_mem (·.ident) hs
    rw [hids] at hmem
    obtain ⟨k, _, hk⟩ := List.mem_map.mp hmem
    have hle := maxIdent_le hp
    omega

/-- Witness study for claim C2: previous study carries the added parameter
`height`; the new row lacks it but agrees on the common parameter. -/
def prevStudyC2 : List (SetRow Int) := [⟨0, ⟨[("width", 1), ("height", 7)]⟩⟩]

/-- New rows for the claim C2 witness. -/
def newRowsC2 : List (Row Int) := [⟨[("width", 1)]⟩]

theorem claim_C2_witness :
    (merge prevStudyC2 newRowsC2).map (·.ident) =
      (List.range newRowsC2.length).map (fun k => maxIdent prevStudyC2 + k + 1) ∧
    ∀ s ∈ merge prevStudyC2 newRowsC2, ∀ p ∈ prevStudyC2, s.ident ≠ p.ident := by
  have h := claim_C2_added_parameter_no_reuse prevStudyC2 newRowsC2 "height"
    (by decide) (by decide)
  exact ⟨h.2.1, h.2.2⟩

/-! ### Fresh identifiers: monotone, never reused, dropped rows (claim C3) -/

/-- Claim C3: the merged study consists of exactly the newly sampled rows in
order (rows present only in the previous study are dropped); each unmatched
row gets one plus the maximum identifier over the previous study and all
already-assigned identifiers; freshly minted identifiers increase
monotonically and never collide with any identifier of the previous study,
even one whose row is absent from the new sampling. -/
theorem claim_C3_merge_fresh_identifiers {α : Type} [DecidableEq α]
    (prev : List (SetRow α)) (new : List (Row α)) :
    ((merge prev new).map (·.row) = new) ∧
    (∀ i, i < new.length →
      prev.find? (fun q => rowsMatch (new.getD i (emptyRow α)) q.row) = none →
      ((merge prev new).getD i (zeroSet α)).ident =
        maxList (prev.map (·.ident) ++ ((merge prev new).take i).map (·.ident)) + 1) ∧
    (∀ i j, i < j → j < new.length →
      prev.find? (fun q => rowsMatch (new.getD i (emptyRow α)) q.row) = none →
      prev.find? (fun q => rowsMatch (new.getD j (emptyRow α)) q.row) = none →
      ((merge prev new).getD i (zeroSet α)).ident <
        ((merge prev new).getD j (zeroSet α)).ident) ∧
    (∀ i, i < new.length →
      prev.find? (fun q => rowsMatch (new.getD i (emptyRow α)) q.row) = none →
      ∀ p ∈ prev, ((merge prev new).getD i (zeroSet α)).ident ≠ p.ident) := by
  have hm : ∀ p ∈ prev, p.ident ≤ maxIdent prev := fun p hp => maxIdent_le hp
  refine ⟨mergeGo_map_row prev new (maxIdent prev), ?_, ?_, ?_⟩
  · intro i hi hnone
    have h := mergeGo_getD_unmatched prev new (maxIdent prev) i hm hi hnone
    rw [merge, h, maxList_append]
    rfl
  · intro i j hij hj hni hnj
    exact mergeGo_fresh_mono prev new (maxIdent prev) i j hm hij hj hni hnj
  · intro i hi hnone p hp
    have hgt := mergeGo_getD_fresh_gt prev new (maxIdent prev) i hm hi hnone
    have hle := maxIdent_le hp
    rw [merge]
    omega

/-- Witness study for claim C3: identifier 5 belongs to a previous row that
is absent from the new sampling; the new unmatched rows must avoid it. -/
def prevStudyC3 : List (SetRow Int) :=
  [⟨0, ⟨[("width", 1)]⟩⟩, ⟨5, ⟨[("width", 2)]⟩⟩]

/-- New rows for the claim C3 witness: the first matches previous set 0, the
last two match nothing. -/
def newRowsC3 : List (Row Int) :=
  [⟨[("width", 1)]⟩, ⟨[("width", 3)]⟩, ⟨[("width", 4)]⟩]

theorem claim_C3_witness :
    (merge prevStudyC3 newRowsC3).map (·.row) = newRowsC3 ∧
    ((merge prevStudyC3 newRowsC3).getD 1 (zeroSet Int)).ident =
      maxList (prevStudyC3.map (·.ident) ++
        ((merge prevStudyC3 newRowsC3).take 1).map (·.ident)) + 1 ∧
    ((merge prevStudyC3 newRowsC3).getD 1 (zeroSet Int)).ident <
      ((merge prevStudyC3 newRowsC3).getD 2 (zeroSet Int)).ident ∧
    ∀ p ∈ prevStudyC3, ((merge prevStudyC3 newRowsC3).getD 1 (zeroSet Int)).ident ≠ p.ident := by
  have h := claim_C3_merge_fresh_identifiers prevStudyC3 newRowsC3
  exact ⟨h.1, h.2.1 1 (by decide) (by decide),
    h.2.2.1 1 2 (by decide) (by decide) (by decide) (by decide),
    h.2.2.2 1 (by decide) (by decide)⟩



/-! ### Cartesian product sampler (claim C4) -/

/-- Modelled from the spec: the Cartesian product sampler expands a schema of
explicit discrete value lists into the full cross product, the first declared
parameter varying slowest and the last declared parameter varying fastest
(spec section 4.2). -/
def cartesianRows {α : Type} : List (String × List α) → List (List (String × α))
  | [] => [[]]
  | (p, vs) :: rest =>
    (vs.map (fun v => (cartesianRows rest).map (fun r => (p, v) :: r))).flatten

/-- The row of the cross product selecting value `cs k` for the `k`-th
declared parameter. -/
def comboRow {α : Type} (s : List (String × List α)) (cs : List α) : List (String × α) :=
  (s.map Prod.fst).zip cs

/-- Mixed-radix decoding of a row index: index `i` selects value `i / M` of
the first parameter, where `M` is the product of the remaining list lengths,
and recurses on `i % M`; this is the declaration-order convention with the
last parameter varying fastest. -/
def cartDecode {α : Type} (dflt : α) : List (String × List α) → Nat → List (String × α)
  | [], _ => []
  | (p, vs) :: rest, i =>
    (p, vs.getD (i / (rest.map (fun e => e.2.length)).prod) dflt) ::
      cartDecode dflt rest (i % (rest.map (fun e => e.2.length)).prod)

theorem sum_map_constant {β : Type} (l : List β) (K : Nat) :
    (l.map (fun _ => K)).sum = l.length * K := by
  induction l with
  | nil => simp
  | cons x xs ih => simp [ih, Nat.succ_mul, Nat.add_comm]

theorem cartesianRows_length {α : Type} :
    ∀ s : List (String × List α),
      (cartesianRows s).length = (s.map (fun e => e.2.length)).prod := by
  intro s
  induction s with
  | nil => rfl
  | cons e rest ih =>
    obtain ⟨p, vs⟩ := e
    simp only [cartesianRows, List.length_flatten, List.map_map, List.map_cons, List.prod_cons]
    rw [show ((List.length ∘ fun v => (cartesianRows rest).map (fun r => (p, v) :: r)) : α → Nat)
        = fun _ => (cartesianRows rest).length from funext fun v => by simp]
    rw [sum_map_constant, ih]

theorem sum_map_ite_count {α : Type} [DecidableEq α] (vs : List α) (c : α) (K : Nat) :
    (vs.map (fun v => if v = c then K else 0)).sum = vs.count c * K := by
  induction vs with
  | nil => simp
  | cons v vs ih =>
    by_cases h : v = c
    · subst h
      simp [List.count_cons, ih, Nat.add_mul, Nat.add_comm]
    · simp [h, ih, List.count_cons]

theorem count_map_cons {γ : Type} [BEq γ] [LawfulBEq γ] (x : γ) (r : List γ) :
    ∀ l : List (List γ), (l.map (fun t => x :: t)).count (x :: r) = l.count r := by
  intro l
  induction l with
  | nil => rfl
  | cons t l ih =>
    by_cases h : r = t
    · subst h
      simp [List.count_cons, ih]
    · have h2 : ¬(x :: r = x :: t) := by simp [h]
      simp [List.count_cons, ih, h, h2]

theorem count_cartesianRows {α : Type} [DecidableEq α] :
    ∀ (s : List (String × List α)) (cs : List α), cs.length = s.length →
      (cartesianRows s).count (comboRow s cs) =
        ((s.zip cs).map (fun ec => ec.1.2.count ec.2)).prod := by
  intro s
  induction s with
  | nil =>
    intro cs hcs
    rw [List.length_nil, List.length_eq_zero] at hcs
    subst hcs
    simp [cartesianRows, comboRow]
  | cons e rest ih =>
    obtain ⟨p, vs⟩ := e
    intro cs hcs
    cases cs with
    | nil => simp at hcs
    | cons c cs =>
      have hcs' : cs.length = rest.length := by simpa using hcs
      have hcombo : comboRow ((p, vs) :: rest) (c :: cs) = (p, c) :: comboRow rest cs := rfl
      rw [hcombo]
      simp only [cartesianRows]
      rw [List.count_flatten, List.map_map]
      have hblock : ∀ v : α,
          (((cartesianRows rest).map (fun r => (p, v) :: r)).count ((p, c) :: comboRow rest cs))
            = if v = c then (cartesianRows rest).count (comboRow rest cs) else 0 := by
        intro v
        by_cases hv : v = c
        · rw [hv, if_pos rfl]
          exact count_map_cons (p, c) (comboRow rest cs) (cartesianRows rest)
        · rw [if_neg hv]
          apply List.count_eq_zero.mpr
          intro hmem
          obtain ⟨r, _, hr⟩ := List.mem_map.mp hmem
          apply hv
          have := congrArg (fun l : List (String × α) => (l.getD 0 (p, c)).2) hr
          simpa using this
      rw [show (List.count ((p, c) :: comboRow rest cs) ∘
            fun v => (cartesianRows rest).map (fun r => (p, v) :: r))
          = fun v => if v = c then (cartesianRows rest).count (comboRow rest cs) else 0 from
          funext fun v => hblock v]
      rw [sum_map_ite_count, ih cs hcs', List.zip_cons_cons, List.map_cons, List.prod_cons]

theorem getD_flatten_uniform {β : Type} (d : β) :
    ∀ (blocks : List (List β)) (M : Nat), 0 < M → (∀ b ∈ blocks, b.length = M) →
      ∀ i : Nat, i < blocks.length * M →
        blocks.flatten.getD i d = (blocks.getD (i / M) []).getD (i % M) d := by
  intro blocks
  induction blocks with
  | nil => intro M _ _ i hi; simp at hi
  | cons b bs ih =>
    intro M hM hlen i hi
    have hb : b.length = M := hlen b (List.mem_cons_self b bs)
    by_cases hiM : i < M
    · rw [List.flatten_cons, List.getD_append _ _ _ _ (by omega),
        Nat.div_eq_of_lt hiM, Nat.mod_eq_of_lt hiM, List.getD_cons_zero]
    · push_neg at hiM
      obtain ⟨k, rfl⟩ : ∃ k, i = k + M := ⟨i - M, by omega⟩
      rw [List.flatten_cons, List.getD_append_right _ _ _ _ (by omega)]
      rw [Nat.add_div_right _ hM, Nat.add_mod_right, List.getD_cons_succ]
      rw [show k + M - b.length = k from by omega]
      apply ih M hM (fun x hx => hlen x (List.mem_cons_of_mem b hx))
      have hexp : (b :: bs).length * M = bs.length * M + M := by
        simp [Nat.add_mul]
      omega

theorem cartesianRows_getD {α : Type} (dflt : α) :
    ∀ (s : List (String × List α)) (i : Nat), i < (s.map (fun e => e.2.length)).prod →
      (cartesianRows s).getD i [] = cartDecode dflt s i := by
  intro s
  induction s with
  | nil =>
    intro i hi
    have : i = 0 := by simpa using hi
    subst this
    rfl
  | cons e rest ih =>
    obtain ⟨p, vs⟩ := e
    intro i hi
    have hN : (((p, vs) :: rest).map (fun e => e.2.length)).prod
        = vs.length * (rest.map (fun e => e.2.length)).prod := by
      simp
    rw [hN] at hi
    have hM : 0 < (rest.map (fun e => e.2.length)).prod := by
      rcases Nat.eq_zero_or_pos ((rest.map (fun e => e.2.length)).prod) with h0 | h
      · rw [h0, Nat.mul_zero] at hi; omega
      · exact h
    have hlenblocks : ∀ b ∈ (vs.map (fun v => (cartesianRows rest).map (fun r => (p, v) :: r))),
        b.length = (rest.map (fun e => e.2.length)).prod := by
      intro b hb
      obtain ⟨v, _, rfl⟩ := List.mem_map.mp hb
      rw [List.length_map, cartesianRows_length]
    have hflat := getD_flatten_uniform ([] : List (String × α))
      (vs.map (fun v => (cartesianRows rest).map (fun r => (p, v) :: r)))
      ((rest.map (fun e => e.2.length)).prod) hM hlenblocks i
      (by rw [List.length_map]; exact hi)
    have hcart : cartesianRows ((p, vs) :: rest)
        = (vs.map (fun v => (cartesianRows rest).map (fun r => (p, v) :: r))).flatten := rfl
    rw [hcart, hflat]
    have hdiv : i / (rest.map (fun e => e.2.length)).prod < vs.length :=
      Nat.div_lt_of_lt_mul (by rw [Nat.mul_comm] at hi; omega)
    have hmod : i % (rest.map (fun e => e.2.length)).prod
        < (rest.map (fun e => e.2.length)).prod := Nat.mod_lt i hM
    have hblockD : (vs.map (fun v => (cartesianRows rest).map (fun r => (p, v) :: r))).getD
        (i / (rest.map (fun e => e.2.length)).prod) [] = (cartesianRows rest).map
          (fun r => (p, vs.getD (i / (rest.map (fun e => e.2.length)).prod) dflt) :: r) := by
      rw [List.getD_eq_getElem _ _ (by rw [List.length_map]; exact hdiv), List.getElem_map,
        List.getD_eq_getElem _ _ hdiv]
    rw [hblockD]
    have hmodlen : i % (rest.map (fun e => e.2.length)).prod < ((cartesianRows rest).map
        (fun r => (p, vs.getD (i / (rest.map (fun e => e.2.length)).prod) dflt) :: r)).length := by
      rw [List.length_map, cartesianRows_length]
      exact hmod
    rw [List.getD_eq_getElem _ _ hmodlen, List.getElem_map]
    have hrest : (cartesianRows rest).getD (i % (rest.map (fun e => e.2.length)).prod) []
        = cartDecode dflt rest (i % (rest.map (fun e => e.2.length)).prod) :=
      ih (i % (rest.map (fun e => e.2.length)).prod) hmod
    rw [List.getD_eq_getElem _ _ (by rw [cartesianRows_length]; exact hmod)] at hrest
    rw [hrest]
    rfl

/-- Claim C4: for every Cartesian-product schema, the generated study has
exactly the product of the value-list lengths as its row count; the
multiplicity of each combination row is the product of the per-parameter
value multiplicities, hence every combination of one value per parameter
appears exactly once when the value lists are duplicate-free; and the row at
index `i` is the fixed mixed-radix decoding of `i` in declaration order, the
last-listed parameter varying fastest. -/
theorem claim_C4_cartesian_product {α : Type} [DecidableEq α]
    (s : List (String × List α)) (dflt : α) :
    ((cartesianRows s).length = (s.map (fun e => e.2.length)).prod) ∧
    (∀ cs : List α, cs.length = s.length →
      (cartesianRows s).count (comboRow s cs) =
        ((s.zip cs).map (fun ec => ec.1.2.count ec.2)).prod) ∧
    (∀ cs : List α, cs.length = s.length → (∀ e ∈ s, e.2.Nodup) →
      (∀ pr ∈ s.zip cs, pr.2 ∈ pr.1.2) →
      (cartesianRows s).count (comboRow s cs) = 1) ∧
    (∀ i : Nat, i < (s.map (fun e => e.2.length)).prod →
      (cartesianRows s).getD i [] = cartDecode dflt s i) := by
  refine ⟨cartesianRows_length s, fun cs hcs => count_cartesianRows s cs hcs, ?_, ?_⟩
  · intro cs hcs hnodup hmem
    rw [count_cartesianRows s cs hcs]
    apply List.prod_eq_one
    intro x hx
    obtain ⟨ec, hec, rfl⟩ := List.mem_map.mp hx
    have h1 : ec.1 ∈ s := (List.mem_zip hec).1
    exact List.count_eq_one_of_mem (hnodup ec.1 h1) (hmem ec hec)
  · intro i hi
    exact cartesianRows_getD dflt s i hi

/-- Witness schema for claim C4: two parameters with two values each. -/
def schemaC4 : List (String × List Int) := [("width", [1, 2]), ("height", [3, 4])]

theorem claim_C4_witness :
    (cartesianRows schemaC4).length = 4 ∧
    (cartesianRows schemaC4).count (comboRow schemaC4 [2, 3]) = 1 ∧
    (cartesianRows schemaC4).getD 2 [] = cartDecode 0 schemaC4 2 := by
  have h := claim_C4_cartesian_product schemaC4 (0 : Int)
  refine ⟨?_, h.2.2.1 [2, 3] (by decide) (by decide) (by decide), h.2.2.2 2 (by decide)⟩
  rw [h.1]
  decide


/-! ### Serializer: aggregate file format and round-trip (claims C6, C8) -/

/-- Modelled from the spec: the single aggregate file carries the ordered
parameter names of the study and, per parameter set, its identifier and its
values aligned to the name order, with a missing parameter stored as a
NaN-like empty cell (spec sections 3 and 4.5). -/
structure AggregateFile (α : Type) where
  paramNames : List String
  rows : List (Nat × List (Option α))
deriving DecidableEq, Repr

/-- All parameter names appearing anywhere in a study, first occurrences
kept, duplicates removed. -/
def collectParams {α : Type} (study : List (SetRow α)) : List String :=
  ((study.map (fun s => s.row.params)).flatten).dedup

/-- Modelled from the spec: serialize a finalized study to the single
aggregate file (spec section 4.5, single aggregate file mode). -/
def serializeAggregate {α : Type} (study : List (SetRow α)) : AggregateFile α :=
  { paramNames := collectParams study,
    rows := study.map (fun s =>
      (s.ident, (collectParams study).map (fun p => s.row.lookup p))) }

/-- Modelled from the spec: read a previously serialized aggregate study
file back as a previous study (spec section 6, previous study input). -/
def readPreviousStudy {α : Type} (f : AggregateFile α) : List (SetRow α) :=
  f.rows.map (fun idvals =>
    ⟨idvals.1, ⟨(f.paramNames.zip idvals.2).filterMap
      (fun pv => pv.2.map (fun v => (pv.1, v)))⟩⟩)

theorem lookupList_filterMap_if {α : Type} (L : String → Option α) :
    ∀ names : List String, names.Nodup → ∀ q : String,
      lookupList (names.filterMap (fun p => (L p).map (fun v => (p, v)))) q
        = if q ∈ names then L q else none := by
  intro names
  induction names with
  | nil => intro _ q; simp [lookupList]
  | cons p ps ih =>
    intro hnodup q
    have hp : p ∉ ps := (List.nodup_cons.mp hnodup).1
    have hps : ps.Nodup := (List.nodup_cons.mp hnodup).2
    have hmemiff : (q ∈ p :: ps) ↔ (q = p ∨ q ∈ ps) := List.mem_cons
    cases hLp : L p with
    | none =>
      rw [List.filterMap_cons_none (by rw [hLp]; rfl), ih hps q]
      by_cases hq : q = p
      · subst hq
        rw [if_neg hp, if_pos (List.mem_cons_self q ps), hLp]
      · by_cases hqs : q ∈ ps
        · rw [if_pos hqs, if_pos (List.mem_cons_of_mem p hqs)]
        · rw [if_neg hqs, if_neg (fun hc => by
            rcases hmemiff.mp hc with h | h
            · exact hq h
            · exact hqs h)]
    | some v =>
      rw [List.filterMap_cons_some (by rw [hLp]; rfl)]
      by_cases hq : q = p
      · subst hq
        have hstep : lookupList ((q, v) ::
            ps.filterMap (fun p => (L p).map (fun v => (p, v)))) q = some v := by
          simp [lookupList]
        rw [hstep, if_pos (List.mem_cons_self q ps), hLp]
      · have hstep : lookupList ((p, v) ::
            ps.filterMap (fun p => (L p).map (fun v => (p, v)))) q
            = lookupList (ps.filterMap (fun p => (L p).map (fun v => (p, v)))) q := by
          simp only [lookupList, if_neg (fun hc : p = q => hq hc.symm)]
        rw [hstep, ih hps q]
        by_cases hqs : q ∈ ps
        · rw [if_pos hqs, if_pos (List.mem_cons_of_mem p hqs)]
        · rw [if_neg hqs, if_neg (fun hc => by
            rcases hmemiff.mp hc with h | h
            · exact hq h
            · exact hqs h)]

theorem mem_collectParams {α : Type} {study : List (SetRow α)} {s : SetRow α} {q : String}
    (hs : s ∈ study) (hq : q ∈ s.row.params) : q ∈ collectParams study := by
  rw [collectParams, List.mem_dedup, List.mem_flatten]
  exact ⟨s.row.params, List.mem_map_of_mem (fun t => t.row.params) hs, hq⟩

/-- The reconstructed values of one serialized row agree with the original
row as a mapping. -/
theorem readPreviousStudy_row_lookup {α : Type} (study : List (SetRow α)) (s : SetRow α)
    (hs : s ∈ study) (q : String) :
    lookupList (((collectParams study).zip
        ((collectParams study).map (fun p => s.row.lookup p))).filterMap
      (fun pv => pv.2.map (fun v => (pv.1, v)))) q = s.row.lookup q := by
  have hzip : (collectParams study).zip
      ((collectParams study).map (fun p => s.row.lookup p))
      = (collectParams study).map (fun p => (p, s.row.lookup p)) := by
    have h1 := List.zip_map' (fun p => p) (fun p => s.row.lookup p) (collectParams study)
    simpa using h1
  rw [hzip, List.filterMap_map]
  have hcomp : ((fun pv : String × Option α => pv.2.map (fun v => (pv.1, v))) ∘
      fun p => (p, s.row.lookup p)) = fun p => (s.row.lookup p).map (fun v => (p, v)) := rfl
  rw [hcomp, lookupList_filterMap_if (fun p => s.row.lookup p) (collectParams study)
    (List.nodup_dedup _) q]
  by_cases hq : q ∈ collectParams study
  · rw [if_pos hq]
  · rw [if_neg hq]
    by_cases hmem : q ∈ s.row.params
    · exact absurd (mem_collectParams hs hmem) hq
    · exact (lookupList_eq_none _ _ hmem).symm

/-- Claim C6: serializing a finalized study to the single aggregate file and
reading it back as a previous study yields a study with the same number of
sets, identical identifiers in order, and per set an identical parameter
value mapping (round-trip identity of identifiers and values). -/
theorem claim_C6_serialize_roundtrip {α : Type} (study : List (SetRow α)) :
    ((readPreviousStudy (serializeAggregate study)).length = study.length) ∧
    ((readPreviousStudy (serializeAggregate study)).map (·.ident) = study.map (·.ident)) ∧
    (∀ i, i < study.length → ∀ q : String,
      ((readPreviousStudy (serializeAggregate study)).getD i (zeroSet α)).row.lookup q
        = (study.getD i (zeroSet α)).row.lookup q) := by
  refine ⟨?_, ?_, ?_⟩
  · simp [readPreviousStudy, serializeAggregate]
  · simp only [readPreviousStudy, serializeAggregate, List.map_map]
    rfl
  · intro i hi q
    have hlen : i < (readPreviousStudy (serializeAggregate study)).length := by
      simpa [readPreviousStudy, serializeAggregate] using hi
    rw [List.getD_eq_getElem _ _ hlen, List.getD_eq_getElem _ _ hi]
    simp only [readPreviousStudy, serializeAggregate, List.map_map]
    rw [List.getElem_map]
    exact readPreviousStudy_row_lookup study study[i] (study.getElem_mem hi) q

/-- Witness study for claim C6: two sets over different parameter subsets,
so the aggregate file NaN-pads the missing column. -/
def studyC6 : List (SetRow Int) :=
  [⟨0, ⟨[("width", 1)]⟩⟩, ⟨1, ⟨[("width", 2), ("height", 3)]⟩⟩]

theorem claim_C6_witness :
    ((readPreviousStudy (serializeAggregate studyC6)).map (·.ident)
      = studyC6.map (·.ident)) ∧
    ((readPreviousStudy (serializeAggregate studyC6)).getD 0 (zeroSet Int)).row.lookup "height"
      = (studyC6.getD 0 (zeroSet Int)).row.lookup "height" ∧
    ((readPreviousStudy (serializeAggregate studyC6)).getD 1 (zeroSet Int)).row.lookup "height"
      = (studyC6.getD 1 (zeroSet Int)).row.lookup "height" := by
  have h := claim_C6_serialize_roundtrip studyC6
  exact ⟨h.2.1, h.2.2 0 (by decide) "height", h.2.2 1 (by decide) "height"⟩

/-! ### Serializer: content-equality skip-write rule (claim C8) -/

/-- Replace or create the file at `path` in an association-list model of the
filesystem. -/
def fsSet {β : Type} (fs : List (String × β)) (path : String) (content : β) :
    List (String × β) :=
  (path, content) :: fs.filter (fun e => decide (e.1 ≠ path))

/-- Modelled from the spec: write the content to the file at `path`,
skipping the write when the file exists with identical content and
`overwrite` is not set, and always rewriting when `overwrite` is set (spec
section 4.5).  Returns the new filesystem and the number of writes
performed. -/
def writeIfChanged {β : Type} [DecidableEq β] (fs : List (String × β)) (path : String)
    (content : β) (overwrite : Bool) : List (String × β) × Nat :=
  match lookupList fs path with
  | some existing =>
    if overwrite = false ∧ existing = content then (fs, 0) else (fsSet fs path content, 1)
  | none => (fsSet fs path content, 1)

theorem lookupList_fsSet {β : Type} (fs : List (String × β)) (path : String) (content : β) :
    lookupList (fsSet fs path content) path = some content := by
  simp [fsSet, lookupList]

theorem lookupList_writeIfChanged {β : Type} [DecidableEq β] (fs : List (String × β))
    (path : String) (content : β) (overwrite : Bool) :
    lookupList (writeIfChanged fs path content overwrite).1 path = some content := by
  cases hlk : lookupList fs path with
  | none =>
    simp only [writeIfChanged, hlk]
    exact lookupList_fsSet fs path content
  | some existing =>
    by_cases hc : overwrite = false ∧ existing = content
    · simp only [writeIfChanged, hlk, if_pos hc]
      rw [hc.2]
    · simp only [writeIfChanged, hlk, if_neg hc]
      exact lookupList_fsSet fs path content

/-- Claim C8: the serializer rewrites an existing output file only when the
content would differ, unless `overwrite` is set, in which case it always
rewrites; in particular writing the same aggregate study twice with
`overwrite` unset performs zero filesystem writes on the second
invocation. -/
theorem claim_C8_skip_unchanged_write {α : Type} [DecidableEq α]
    (fs : List (String × AggregateFile α)) (path : String) (study : List (SetRow α)) :
    (∀ existing, lookupList fs path = some existing →
      existing = serializeAggregate study →
      writeIfChanged fs path (serializeAggregate study) false = (fs, 0)) ∧
    (∀ existing, lookupList fs path = some existing →
      existing ≠ serializeAggregate study →
      (writeIfChanged fs path (serializeAggregate study) false).2 = 1) ∧
    ((writeIfChanged fs path (serializeAggregate study) true).2 = 1) ∧
    (writeIfChanged
        (writeIfChanged fs path (serializeAggregate study) false).1
        path (serializeAggregate study) false
      = ((writeIfChanged fs path (serializeAggregate study) false).1, 0)) := by
  refine ⟨?_, ?_, ?_, ?_⟩
  · intro existing hlk heq
    simp only [writeIfChanged, hlk]
    rw [if_pos ⟨trivial, heq⟩]
  · intro existing hlk hne
    simp only [writeIfChanged, hlk]
    rw [if_neg (fun hc => hne hc.2)]
  · cases hlk : lookupList fs path with
    | none => simp only [writeIfChanged, hlk]
    | some existing =>
      simp only [writeIfChanged, hlk, if_neg (fun hc : true = false ∧
        existing = serializeAggregate study => absurd hc.1 (by decide))]
  · generalize hfs1 : (writeIfChanged fs path (serializeAggregate study) false).1 = fs1
    have hlk2 : lookupList fs1 path = some (serializeAggregate study) := by
      rw [← hfs1]
      exact lookupList_writeIfChanged fs path (serializeAggregate study) false
    simp only [writeIfChanged, hlk2]
    rw [if_pos ⟨trivial, trivial⟩]

theorem claim_C8_witness :
    writeIfChanged
        (writeIfChanged ([] : List (String × AggregateFile Int)) "parameter_study.h5"
          (serializeAggregate studyC6) false).1
        "parameter_study.h5" (serializeAggregate studyC6) false
      = ((writeIfChanged ([] : List (String × AggregateFile Int)) "parameter_study.h5"
          (serializeAggregate studyC6) false).1, 0) :=
  (claim_C8_skip_unchanged_write [] "parameter_study.h5" studyC6).2.2.2


/-! ### Stochastic samplers: Latin hypercube and Sobol (claim C5) -/

/-- Linear congruential step used as the model pseudo-random kernel. -/
def lcg (s : Nat) : Nat := (1103515245 * s + 12345) % 2147483648

/-- Draw a pseudo-random permutation of the given list, consuming the fuel
one element per step. -/
def drawPerm : Nat → Nat → List Nat → List Nat
  | 0, _, _ => []
  | fuel + 1, s, l =>
    if l.isEmpty then []
    else
      l.getD (s % l.length) 0 :: drawPerm fuel (lcg s) (l.eraseIdx (s % l.length))

/-- Pseudo-random permutation of `0, ..., n - 1` derived from state `s`. -/
def permutation (s n : Nat) : List Nat := drawPerm n (lcg s) (List.range n)

/-- A pseudo-random numerator in `0, ..., 1023` derived from state `s`,
denoting the unit-interval sample `unitNum s / 1024`. -/
def unitNum (s : Nat) : Nat := lcg s % 1024

/-- Mix the base state with a row index and a dimension index. -/
def mixState (s i d : Nat) : Nat := lcg (s + 7919 * i + 104729 * d)

/-- An unreduced non-negative fraction `num / den`, the executable stand-in
for a real number of the unit interval and its inverse-CDF image. -/
structure Frac where
  num : Nat
  den : Nat
deriving DecidableEq, Repr

/-- One distribution-sampled parameter of a sampling schema: name,
distribution name, and distribution keyword arguments. -/
structure DistParam where
  name : String
  distribution : String
  kwargs : List (String × Int)
deriving DecidableEq, Repr

/-- Modelled from the spec: a validated sampling schema carries
`num_simulations` and the ordered distribution parameters (spec section 3). -/
structure SamplingSchema where
  num_simulations : Nat
  parameters : List DistParam
deriving DecidableEq, Repr

/-- Modelled from the spec: Latin hypercube sampling.  For `num_simulations`
rows, stratify the unit interval into `num_simulations` bins per dimension,
draw one sample per bin, permute the bin-to-row assignment independently per
dimension, and map each stratified uniform sample `(bin + u) / n` through
the named distribution's inverse CDF `ppf` with the supplied kwargs (spec
section 4.2).  An explicit seed fixes the pseudo-random state; without one
the ambient state is consumed, so runs are non-deterministic by design. -/
def lhsSample (ppf : String → List (String × Int) → Frac → Frac) (schema : SamplingSchema)
    (seed : Option Nat) (ambient : Nat) : List (Row Frac) :=
  let n := schema.num_simulations
  let s0 := match seed with
    | some s => s
    | none => ambient
  (List.range n).map (fun i =>
    ⟨(List.range schema.parameters.length).map (fun d =>
      let par := schema.parameters.getD d ⟨"", "", []⟩
      let bin := (permutation (s0 + d) n).getD i 0
      let u := unitNum (mixState s0 i d)
      (par.name, ppf par.distribution par.kwargs ⟨bin * 1024 + u, n * 1024⟩))⟩)

/-- Reverse the lowest `b` bits of `x` (radical-inverse bit pattern). -/
def bitrev : Nat → Nat → Nat
  | 0, _ => 0
  | b + 1, x => (x % 2) * 2 ^ b + bitrev b (x / 2)

/-- The `i`-th point of the scrambled base-2 radical-inverse sequence used
as the model low-discrepancy generator. -/
def sobolPoint (scramble i : Nat) : Frac :=
  ⟨bitrev 16 (i ^^^ (scramble % 65536)), 65536⟩

/-- Modelled from the spec: Sobol sequence sampling.  Generate
`num_simulations` points of a scrambled low-discrepancy sequence in the unit
hypercube and map each coordinate through the corresponding parameter's
inverse CDF (spec section 4.2); same seed contract as the Latin hypercube
sampler. -/
def sobolSample (ppf : String → List (String × Int) → Frac → Frac) (schema : SamplingSchema)
    (seed : Option Nat) (ambient : Nat) : List (Row Frac) :=
  let s0 := match seed with
    | some s => s
    | none => ambient
  (List.range schema.num_simulations).map (fun i =>
    ⟨(List.range schema.parameters.length).map (fun d =>
      let par := schema.parameters.getD d ⟨"", "", []⟩
      (par.name, ppf par.distribution par.kwargs (sobolPoint (lcg (s0 + d)) i)))⟩)

/-- Modelled from the spec: the generator assigns provisional sequential
identifiers 0..N-1 to freshly sampled rows (spec section 4.3). -/
def assignIdents {α : Type} (rows : List (Row α)) : List (SetRow α) :=
  rows.enum.map (fun iv => ⟨iv.1, iv.2⟩)

/-- Claim C5: with the same schema and the same explicit seed, two runs of
the Latin hypercube sampler (and of the Sobol sampler) produce identical
studies, byte-identical once serialized, whatever the ambient random state;
with the seed omitted, distinct ambient states can produce different
studies. -/
theorem claim_C5_seed_reproducibility
    (ppf : String → List (String × Int) → Frac → Frac) (schema : SamplingSchema)
    (s a₁ a₂ : Nat) :
    (lhsSample ppf schema (some s) a₁ = lhsSample ppf schema (some s) a₂) ∧
    (sobolSample ppf schema (some s) a₁ = sobolSample ppf schema (some s) a₂) ∧
    (serializeAggregate (assignIdents (lhsSample ppf schema (some s) a₁))
      = serializeAggregate (assignIdents (lhsSample ppf schema (some s) a₂))) ∧
    (serializeAggregate (assignIdents (sobolSample ppf schema (some s) a₁))
      = serializeAggregate (assignIdents (sobolSample ppf schema (some s) a₂))) ∧
    (∃ (ppfw : String → List (String × Int) → Frac → Frac) (schemaw : SamplingSchema)
      (b₁ b₂ : Nat),
      lhsSample ppfw schemaw none b₁ ≠ lhsSample ppfw schemaw none b₂) ∧
    (∃ (ppfw : String → List (String × Int) → Frac → Frac) (schemaw : SamplingSchema)
      (b₁ b₂ : Nat),
      sobolSample ppfw schemaw none b₁ ≠ sobolSample ppfw schemaw none b₂) := by
  refine ⟨rfl, rfl, rfl, rfl, ?_, ?_⟩
  · exact ⟨fun _ _ q => q, ⟨1, [⟨"parameter_1", "norm", []⟩]⟩, 0, 1, by decide⟩
  · exact ⟨fun _ _ q => q, ⟨1, [⟨"parameter_1", "norm", []⟩]⟩, 0, 1, by decide⟩


/-! ### Schema validation (claim C7)

The validator is modelled from spec section 4.1 together with the behavior
pinned down by the in-tree test `waves/tests/test_latinhypercube.py`:
a missing required key raises the attribute-missing schema error
(Python AttributeError), and a wrong type or invalid identifier raises the
schema type error (Python TypeError), before any sampling work begins. -/

/-- A dynamically typed schema value, mirroring the YAML/Python values a raw
schema dictionary can hold. -/
inductive PyValue where
  | int (n : Int)
  | str (s : String)
  | list (elems : List PyValue)
  | dict (entries : List (String × PyValue))

/-- The two schema validation failure kinds of the spec error taxonomy:
the missing-required-field SchemaError and the wrong-type or
invalid-identifier SchemaTypeError (spec section 7). -/
inductive SchemaCheckError where
  | attributeMissing (field : String)
  | typeError (field : String)
deriving DecidableEq, Repr

/-- Python-style identifier check: first character alphabetic or underscore,
remaining characters alphanumeric or underscore, nonempty. -/
def isValidIdentifier (s : String) : Bool :=
  match s.data with
  | [] => false
  | c :: rest => (c.isAlpha || c == '_') && rest.all (fun ch => ch.isAlphanum || ch == '_')

/-- Modelled from the spec: confirm `num_simulations` is present and is a
positive integer (spec section 4.1). -/
def checkNumSimulations (schema : List (String × PyValue)) : Except SchemaCheckError Unit :=
  match lookupList schema "num_simulations" with
  | none => .error (.attributeMissing "num_simulations")
  | some (.int n) => if 0 < n then .ok () else .error (.typeError "num_simulations")
  | some _ => .error (.typeError "num_simulations")

/-- Modelled from the spec: validate one parameter entry of a sampling
schema: the parameter key is a valid identifier, the entry is a
distribution specification, its `distribution` field exists, is a string
and a valid identifier, and every keyword-argument key is a valid
identifier (spec sections 3 and 4.1). -/
def validateDistParam : String × PyValue → Except SchemaCheckError Unit
  | (pname, v) =>
    if isValidIdentifier pname = false then .error (.typeError pname)
    else
      match v with
      | .dict entries =>
        match lookupList entries "distribution" with
        | none => .error (.attributeMissing "distribution")
        | some (.str dname) =>
          if isValidIdentifier dname = false then .error (.typeError "distribution")
          else if entries.all (fun e => isValidIdentifier e.1) then .ok ()
          else .error (.typeError "kwarg")
        | some _ => .error (.typeError "distribution")
      | _ => .error (.typeError pname)

/-- Validate the parameter entries in order, stopping at the first error. -/
def validateParams : List (String × PyValue) → Except SchemaCheckError Unit
  | [] => .ok ()
  | e :: rest =>
    match validateDistParam e with
    | .ok () => validateParams rest
    | .error err => .error err

/-- Modelled from the spec: full sampling-schema validation, run once at
generator construction time (spec section 4.1). -/
def validate (schema : List (String × PyValue)) : Except SchemaCheckError Unit :=
  match checkNumSimulations schema with
  | .error e => .error e
  | .ok () => validateParams (schema.filter (fun e => decide (e.1 ≠ "num_simulations")))

/-- Modelled from the spec: extract the validated sampling schema from the
raw dictionary. -/
def toSamplingSchema (schema : List (String × PyValue)) : SamplingSchema :=
  { num_simulations :=
      match lookupList schema "num_simulations" with
      | some (.int n) => n.toNat
      | _ => 0,
    parameters := (schema.filter (fun e => decide (e.1 ≠ "num_simulations"))).map (fun e =>
      { name := e.1,
        distribution :=
          match e.2 with
          | .dict entries =>
            (match lookupList entries "distribution" with
             | some (.str d) => d
             | _ => "")
          | _ => "",
        kwargs :=
          match e.2 with
          | .dict entries =>
            (entries.filter (fun kv => decide (kv.1 ≠ "distribution"))).filterMap
              (fun kv => match kv.2 with | .int n => some (kv.1, n) | _ => none)
          | _ => [] }) }

/-- Modelled from the spec: Latin hypercube generator construction runs the
schema validation before any sampling work; a validation failure is returned
without sampling (spec section 4.1, validation runs once at construction
time and raises before any sampling work begins). -/
def latinHypercubeGenerator (ppf : String → List (String × Int) → Frac → Frac)
    (schema : List (String × PyValue)) (seed : Option Nat) (ambient : Nat) :
    Except SchemaCheckError (List (Row Frac)) :=
  match validate schema with
  | .error e => .error e
  | .ok () => .ok (lhsSample ppf (toSamplingSchema schema) seed ambient)

theorem validateParams_append_error (pre : List (String × PyValue))
    (e : String × PyValue) (post : List (String × PyValue)) (err : SchemaCheckError)
    (hpre : ∀ x ∈ pre, validateDistParam x = .ok ())
    (he : validateDistParam e = .error err) :
    validateParams (pre ++ e :: post) = .error err := by
  induction pre with
  | nil =>
    simp only [List.nil_append, validateParams, he]
  | cons x xs ih =>
    have hx : validateDistParam x = .ok () := hpre x (List.mem_cons_self x xs)
    simp only [List.cons_append, validateParams, hx]
    exact ih (fun y hy => hpre y (List.mem_cons_of_mem x hy))

/-- Claim C7: schema validation at generator construction fails with the
attribute-missing schema error whenever a required key is absent
(`num_simulations` for the sampling schema, `distribution` for a parameter
entry) and with the schema type error whenever a present value has the
wrong type or an invalid identifier shape (non-integer `num_simulations`,
non-string or non-identifier distribution, non-identifier kwarg key); the
failure surfaces from generator construction before any sampling work. -/
theorem claim_C7_schema_validation :
    (∀ schema : List (String × PyValue),
      lookupList schema "num_simulations" = none →
      validate schema = .error (.attributeMissing "num_simulations")) ∧
    (∀ (schema : List (String × PyValue)) (v : PyValue),
      lookupList schema "num_simulations" = some v → (∀ n : Int, v ≠ .int n) →
      validate schema = .error (.typeError "num_simulations")) ∧
    (∀ (pname : String) (entries : List (String × PyValue)),
      isValidIdentifier pname = true →
      lookupList entries "distribution" = none →
      validateDistParam (pname, .dict entries) = .error (.attributeMissing "distribution")) ∧
    (∀ (pname : String) (entries : List (String × PyValue)) (v : PyValue),
      isValidIdentifier pname = true →
      lookupList entries "distribution" = some v → (∀ d : String, v ≠ .str d) →
      validateDistParam (pname, .dict entries) = .error (.typeError "distribution")) ∧
    (∀ (pname dname : String) (entries : List (String × PyValue)),
      isValidIdentifier pname = true →
      lookupList entries "distribution" = some (.str dname) →
      isValidIdentifier dname = false →
      validateDistParam (pname, .dict entries) = .error (.typeError "distribution")) ∧
    (∀ (pname dname : String) (entries : List (String × PyValue)),
      isValidIdentifier pname = true →
      lookupList entries "distribution" = some (.str dname) →
      isValidIdentifier dname = true →
      entries.all (fun e => isValidIdentifier e.1) = false →
      validateDistParam (pname, .dict entries) = .error (.typeError "kwarg")) ∧
    (∀ (schema pre post : List (String × PyValue)) (e : String × PyValue)
      (err : SchemaCheckError),
      checkNumSimulations schema = .ok () →
      schema.filter (fun x => decide (x.1 ≠ "num_simulations")) = pre ++ e :: post →
      (∀ x ∈ pre, validateDistParam x = .ok ()) →
      validateDistParam e = .error err →
      validate schema = .error err) ∧
    (∀ (ppf : String → List (String × Int) → Frac → Frac)
      (schema : List (String × PyValue)) (seed : Option Nat) (ambient : Nat)
      (e : SchemaCheckError),
      validate schema = .error e →
      latinHypercubeGenerator ppf schema seed ambient = .error e) := by
  refine ⟨?_, ?_, ?_, ?_, ?_, ?_, ?_, ?_⟩
  · intro schema hlk
    simp [validate, checkNumSimulations, hlk]
  · intro schema v hlk hv
    cases v with
    | int n => exact absurd rfl (hv n)
    | str s => simp [validate, checkNumSimulations, hlk]
    | list elems => simp [validate, checkNumSimulations, hlk]
    | dict entries => simp [validate, checkNumSimulations, hlk]
  · intro pname entries hid hlk
    simp [validateDistParam, hid, hlk]
  · intro pname entries v hid hlk hv
    cases v with
    | str d => exact absurd rfl (hv d)
    | int n => simp [validateDistParam, hid, hlk]
    | list elems => simp [validateDistParam, hid, hlk]
    | dict d => simp [validateDistParam, hid, hlk]
  · intro pname dname entries hid hlk hbad
    simp [validateDistParam, hid, hlk, hbad]
  · intro pname dname entries hid hlk hgood hkw
    simp [validateDistParam, hid, hlk, hgood, hkw]
  · intro schema pre post e err hnum hfilter hpre he
    simp only [validate, hnum, hfilter]
    exact validateParams_append_error pre e post err hpre he
  · intro ppf schema seed ambient e hval
    simp only [latinHypercubeGenerator, hval]


/-- Witness for claim C7 at the concrete schemas of the in-tree Latin
hypercube validation test. -/
theorem claim_C7_witness :
    validate [] = .error (.attributeMissing "num_simulations") ∧
    validate [("num_simulations", PyValue.str "not_a_number")]
      = .error (.typeError "num_simulations") ∧
    validate [("num_simulations", PyValue.int 1), ("parameter_1", PyValue.dict [])]
      = .error (.attributeMissing "distribution") ∧
    validate [("num_simulations", PyValue.int 1),
        ("parameter_1", PyValue.dict [("distribution", PyValue.int 1)])]
      = .error (.typeError "distribution") ∧
    validate [("num_simulations", PyValue.int 1),
        ("parameter_1", PyValue.dict [("distribution", PyValue.str "my norm")])]
      = .error (.typeError "distribution") ∧
    validate [("num_simulations", PyValue.int 1),
        ("parameter_1", PyValue.dict [("distribution", PyValue.str "norm"),
          ("kwarg 1", PyValue.int 1)])]
      = .error (.typeError "kwarg") ∧
    latinHypercubeGenerator (fun _ _ q => q) [] none 0
      = .error (.attributeMissing "num_simulations") := by
  obtain ⟨h1, h2, h3, h4, h5, h6, h7, h8⟩ := claim_C7_schema_validation
  refine ⟨h1 [] rfl, h2 _ _ rfl (fun n hc => by cases hc), ?_, ?_, ?_, ?_, ?_⟩
  · exact h7 _ [] [] _ _ rfl rfl (by intro x hx; cases hx)
      (h3 "parameter_1" [] rfl rfl)
  · exact h7 _ [] [] _ _ rfl rfl (by intro x hx; cases hx)
      (h4 "parameter_1" [("distribution", PyValue.int 1)] (PyValue.int 1) rfl rfl
        (fun d hc => by cases hc))
  · exact h7 _ [] [] _ _ rfl rfl (by intro x hx; cases hx)
      (h5 "parameter_1" "my norm" [("distribution", PyValue.str "my norm")] rfl rfl rfl)
  · exact h7 _ [] [] _ _ rfl rfl (by intro x hx; cases hx)
      (h6 "parameter_1" "norm"
        [("distribution", PyValue.str "norm"), ("kwarg 1", PyValue.int 1)] rfl rfl rfl rfl)
  · exact h8 _ [] none 0 _ (h1 [] rfl)


/-! ### CLI wrapper `waves/_parameter_study.py` (claims C9, C10)

`read_parameter_schema` and `main` are embedded from the source file
`src/waves/_parameter_study.py`; the subcommand names (settings module) and
the run boundary that converts uncaught exceptions into a diagnostic plus a
non-zero exit status are not in the source tree and are modelled from the
spec. -/

/-- The input resolved by the argument parser: an open STDIN stream, a file
path, or nothing (`None` when STDIN is a terminal and no path was given). -/
inductive InputSource where
  | stream (content : String)
  | path (p : String)
  | missing

/-- The exceptions `main` can raise: `RuntimeError` from
`read_parameter_schema`, `KeyError` from the generator dictionary lookup,
and schema validation errors from generator construction. -/
inductive CliError where
  | runtimeError (msg : String)
  | keyError (key : String)
  | schemaError (e : SchemaCheckError)
deriving DecidableEq, Repr

/-- Embedded from `read_parameter_schema` in `waves/_parameter_study.py`:
a `None` input raises `RuntimeError`; a stream is parsed directly; a path is
checked for existence and raises `RuntimeError` when the file does not
exist, otherwise its content is parsed.  `parse` stands for
`yaml.safe_load` and `fs` for the filesystem. -/
def read_parameter_schema (parse : String → List (String × PyValue))
    (fs : List (String × String)) :
    InputSource → Except CliError (List (String × PyValue))
  | .missing =>
    .error (.runtimeError "Require an input file path or a YAML formatted string on STDIN")
  | .stream content => .ok (parse content)
  | .path p =>
    match lookupList fs p with
    | none => .error (.runtimeError ("File " ++ p ++ " does not exist."))
    | some content => .ok (parse content)

/-- The four parameter study generator classes. -/
inductive GeneratorKind where
  | cartesianProduct
  | customStudy
  | latinHypercube
  | sobolSequence
deriving DecidableEq, Repr

/-- Modelled from the spec: the subcommand-to-generator dictionary built in
`main` from the four settings-module subcommand names (the settings module
is absent from the source tree; spec section 6 names one subcommand per
sampler strategy). -/
def availableParameterGenerators : List (String × GeneratorKind) :=
  [("cartesian_product", .cartesianProduct),
   ("custom_study", .customStudy),
   ("latin_hypercube", .latinHypercube),
   ("sobol_sequence", .sobolSequence)]

/-- Modelled from the spec: the default aggregate output file name. -/
def defaultOutputFile : String := "parameter_study.h5"

/-- Shallow rendering of a schema value for file content. -/
def encodePyValue : PyValue → String
  | .int n => toString n
  | .str s => s
  | .dict _ => "dict"
  | .list _ => "list"

/-- Render one study row as file content. -/
def encodeRow (r : Row Frac) : String :=
  String.intercalate "," (r.values.map (fun kv =>
    kv.1 ++ "=" ++ toString kv.2.num ++ "/" ++ toString kv.2.den))

/-- Render a sampled study as file content. -/
def encodeStudy (rows : List (Row Frac)) : String :=
  String.intercalate ";" (rows.map encodeRow)

/-- Extract the explicit value lists of a Cartesian-product schema. -/
def extractValueLists (schema : List (String × PyValue)) : List (String × List PyValue) :=
  schema.filterMap (fun e =>
    match e.2 with
    | .list elems => some (e.1, elems)
    | _ => none)

/-- Render a Cartesian-product study as file content. -/
def encodeValueRows (rows : List (List (String × PyValue))) : String :=
  String.intercalate ";" (rows.map (fun r =>
    String.intercalate "," (r.map (fun kv => kv.1 ++ "=" ++ encodePyValue kv.2))))

/-- Modelled from the spec: instantiate the selected generator class and
write its study to the default aggregate output file; sampling generators
validate their schema first (spec sections 4.1 to 4.3). -/
def runGenerator (ppf : String → List (String × Int) → Frac → Frac)
    (kind : GeneratorKind) (schema : List (String × PyValue)) (seed : Option Nat)
    (ambient : Nat) (fs : List (String × String)) :
    Except CliError (List (String × String)) :=
  match kind with
  | .latinHypercube =>
    match validate schema with
    | .error e => .error (.schemaError e)
    | .ok () => .ok (fsSet fs defaultOutputFile
        (encodeStudy (lhsSample ppf (toSamplingSchema schema) seed ambient)))
  | .sobolSequence =>
    match validate schema with
    | .error e => .error (.schemaError e)
    | .ok () => .ok (fsSet fs defaultOutputFile
        (encodeStudy (sobolSample ppf (toSamplingSchema schema) seed ambient)))
  | .cartesianProduct =>
    .ok (fsSet fs defaultOutputFile (encodeValueRows (cartesianRows (extractValueLists schema))))
  | .customStudy =>
    .ok (fsSet fs defaultOutputFile "custom_study")

/-- Embedded from `main` in `waves/_parameter_study.py`: the input schema is
read (and its existence checked) first, then the subcommand is resolved
against the generator dictionary (an unknown subcommand is a `KeyError`),
then the generator is constructed and its study written.  Returns the run
outcome together with the resulting filesystem; a raised error leaves the
filesystem untouched. -/
def mainStudy (ppf : String → List (String × Int) → Frac → Frac)
    (parse : String → List (String × PyValue)) (subcommand : String)
    (input : InputSource) (seed : Option Nat) (ambient : Nat)
    (fs : List (String × String)) : Except CliError Unit × List (String × String) :=
  match read_parameter_schema parse fs input with
  | .error e => (.error e, fs)
  | .ok schema =>
    match lookupList availableParameterGenerators subcommand with
    | none => (.error (.keyError subcommand), fs)
    | some kind =>
      match runGenerator ppf kind schema seed ambient fs with
      | .error e => (.error e, fs)
      | .ok fs2 => (.ok (), fs2)

/-- Modelled from the spec: the human-readable diagnostic for an uncaught
error reaching the run boundary. -/
def describeCliError : CliError → String
  | .runtimeError msg => msg
  | .keyError key => "KeyError: " ++ key
  | .schemaError _ => "schema validation error"

/-- Modelled from the spec: the run boundary converts an uncaught error into
a diagnostic message plus a non-zero exit status, and a normal return into
exit status zero (spec section 7, propagation policy). -/
def cliBoundary : Except CliError Unit → Nat × Option String
  | .error e => (1, some (describeCliError e))
  | .ok _ => (0, none)

/-- Claim C9: when the required schema input path does not exist and no data
arrived on STDIN, the run fails with the fatal missing-input RuntimeError at
the point of detection, the filesystem is untouched (no sampling output is
written), and at the run boundary the error becomes a diagnostic message
plus a non-zero exit status; likewise when no input was supplied at all. -/
theorem claim_C9_missing_input_fatal
    (ppf : String → List (String × Int) → Frac → Frac)
    (parse : String → List (String × PyValue)) (subcommand : String) (p : String)
    (seed : Option Nat) (ambient : Nat) (fs : List (String × String))
    (hmissing : lookupList fs p = none) :
    (mainStudy ppf parse subcommand (.path p) seed ambient fs
      = (.error (.runtimeError ("File " ++ p ++ " does not exist.")), fs)) ∧
    (cliBoundary (mainStudy ppf parse subcommand (.path p) seed ambient fs).1
      = (1, some ("File " ++ p ++ " does not exist."))) ∧
    (mainStudy ppf parse subcommand .missing seed ambient fs
      = (.error (.runtimeError
          "Require an input file path or a YAML formatted string on STDIN"), fs)) ∧
    ((cliBoundary (mainStudy ppf parse subcommand .missing seed ambient fs).1).1 ≠ 0) := by
  have hread : read_parameter_schema parse fs (.path p)
      = .error (.runtimeError ("File " ++ p ++ " does not exist.")) := by
    simp only [read_parameter_schema, hmissing]
  refine ⟨?_, ?_, rfl, ?_⟩
  · simp only [mainStudy, hread]
  · simp only [mainStudy, hread, cliBoundary, describeCliError]
  · simp [mainStudy, read_parameter_schema, cliBoundary]

theorem claim_C9_witness :
    mainStudy (fun _ _ q => q) (fun _ => []) "latin_hypercube" (.path "schema.yaml")
        none 0 []
      = (.error (.runtimeError ("File " ++ "schema.yaml" ++ " does not exist.")), []) ∧
    (cliBoundary (mainStudy (fun _ _ q => q) (fun _ => []) "latin_hypercube"
        (.path "schema.yaml") none 0 []).1).1 ≠ 0 := by
  have h := claim_C9_missing_input_fatal (fun _ _ q => q) (fun _ => [])
    "latin_hypercube" "schema.yaml" none 0 [] rfl
  refine ⟨h.1, ?_⟩
  rw [h.2.1]
  decide

/-- Claim C10: in `main` the input schema is read before the subcommand is
resolved: with a nonexistent input path the missing-input RuntimeError is
raised whatever the subcommand string, even an unknown one; and with a
readable input, a subcommand outside the four supported names raises an
unhandled KeyError at the generator dictionary lookup rather than a
dedicated diagnostic. -/
theorem claim_C10_read_before_dispatch
    (ppf : String → List (String × Int) → Frac → Frac)
    (parse : String → List (String × PyValue)) (subcommand : String) (p : String)
    (seed : Option Nat) (ambient : Nat) (fs : List (String × String)) :
    (lookupList fs p = none →
      (mainStudy ppf parse subcommand (.path p) seed ambient fs).1
        = .error (.runtimeError ("File " ++ p ++ " does not exist."))) ∧
    (∀ content, lookupList fs p = some content →
      subcommand ∉ availableParameterGenerators.map Prod.fst →
      (mainStudy ppf parse subcommand (.path p) seed ambient fs).1
        = .error (.keyError subcommand)) := by
  constructor
  · intro hmissing
    simp only [mainStudy, read_parameter_schema, hmissing]
  · intro content hcontent hsub
    have hlk : lookupList availableParameterGenerators subcommand = none :=
      lookupList_eq_none _ _ hsub
    simp only [mainStudy, read_parameter_schema, hcontent, hlk]

theorem claim_C10_witness :
    (mainStudy (fun _ _ q => q) (fun _ => [("num_simulations", PyValue.int 1)])
        "unknown_subcommand" (.path "missing.yaml") none 0
        [("schema.yaml", "num_simulations: 1")]).1
      = .error (.runtimeError ("File " ++ "missing.yaml" ++ " does not exist.")) ∧
    (mainStudy (fun _ _ q => q) (fun _ => [("num_simulations", PyValue.int 1)])
        "unknown_subcommand" (.path "schema.yaml") none 0
        [("schema.yaml", "num_simulations: 1")]).1
      = .error (.keyError "unknown_subcommand") := by
  constructor
  · exact (claim_C10_read_before_dispatch (fun _ _ q => q)
      (fun _ => [("num_simulations", PyValue.int 1)]) "unknown_subcommand" "missing.yaml"
      none 0 [("schema.yaml", "num_simulations: 1")]).1 rfl
  · exact (claim_C10_read_before_dispatch (fun _ _ q => q)
      (fun _ => [("num_simulations", PyValue.int 1)]) "unknown_subcommand" "schema.yaml"
      none 0 [("schema.yaml", "num_simulations: 1")]).2
      "num_simulations: 1" rfl (by decide)

end Waves
